import Mathlib

/-!
# Verification of the vulppi-dev/kit request-dispatch core

Shallow embedding of the router worker (`tunnel`, `getIdentities`,
`getMiddlewares`, `sortCompiledRoutes`, `callRecursiveMiddlewares`) and of the
path utilities (`normalizePath`, `join`) from `src/utils/path.ts`.

Pure string manipulation is modelled on `List Char`; JavaScript's
`String.prototype.split('/')` is embedded as `splitCharList`, which has the
same semantics (an empty string splits to one empty segment, separators at the
ends produce empty segments).

Route `paramExtract` regular expressions are generated at build time and are
not part of the source tree; following the specification's invariant
("`paramPattern` matches a candidate path iff the path is structurally
conformant: same segment count, literal segments equal, bracketed segments
bind one segment each"), structural matching and positional capture are
modelled from the spec (`structMatchSegs`, `capturesSegs`).
-/

namespace Kit

/-- One path segment, as a raw character list (result of splitting on `/`). -/
abbrev Seg := List Char

/-- Embedding of JavaScript `str.split('/')`: splits a character list at every
`'/'`; the empty list yields one empty segment. -/
def splitCharList : List Char → List Seg
  | [] => [[]]
  | c :: rest =>
    if c = '/' then [] :: splitCharList rest
    else
      match splitCharList rest with
      | [] => [[c]]
      | s :: r => (c :: s) :: r

/-- Segments of a pathname string, as in `pathname.split('/')`. -/
def splitSlash (s : String) : List Seg := splitCharList s.data

/-- Embedding of the JavaScript test `seg[0] === '['`: a segment is dynamic
iff its first character is `'['` (an empty segment is not dynamic, since
`""[0]` is `undefined`). -/
def segIsDyn : Seg → Bool
  | [] => false
  | c :: _ => c = '['

/-- A compiled route identity (`AutoGeneratedVars`): the template `pathname`,
the original declared `route` string (used only for tie-breaking) and the
ordered parameter names `paramKeys`.  The generated `paramExtract` regex is
represented by the structural-matching model below. -/
structure RouteIdentity where
  pathname : String
  route : String
  paramKeys : List String
  deriving DecidableEq, Repr

/-- The segment-scanning loop of `sortCompiledRoutes`: iterates over the FIRST
template's segments; at each index, if both segments are dynamic it continues,
if the first is dynamic it returns `1`, if the second is dynamic it returns
`-1` (when the second list is exhausted, `bSlipt[i]?.[0]` is `undefined`, so
only the first template's dynamicity can decide); returns `none` when the loop
falls through. -/
def cmpSegs : List Seg → List Seg → Option Int
  | [], _ => none
  | a :: as, [] => if segIsDyn a then some 1 else cmpSegs as []
  | a :: as, b :: bs =>
    if segIsDyn a && segIsDyn b then cmpSegs as bs
    else if segIsDyn a then some 1
    else if segIsDyn b then some (-1)
    else cmpSegs as bs

/-- Strict lexicographic comparison of character lists: the embedding of the
JavaScript `<`/`>` operators on strings (code-unit-wise lexicographic
comparison). -/
def charListLt : List Char → List Char → Bool
  | _, [] => false
  | [], _ :: _ => true
  | a :: as, b :: bs => if a < b then true else if b < a then false else charListLt as bs

/-- The case-folded tie-breaking key of a route identity: the embedding of
`route.toLowerCase()` (per-character ASCII case folding), as a character
list. -/
def routeKey (a : RouteIdentity) : List Char := a.route.data.map Char.toLower

/-- The tie-breaking tail of `sortCompiledRoutes`: compare the declared
`route` strings case-insensitively, then return the pathname-length
difference `b.pathname.length - a.pathname.length`. -/
def tieCmp (a b : RouteIdentity) : Int :=
  if charListLt (routeKey a) (routeKey b) then -1
  else if charListLt (routeKey b) (routeKey a) then 1
  else (b.pathname.length : Int) - (a.pathname.length : Int)

/-- Embedding of `sortCompiledRoutes(a, b)` from the worker source: the
positional literal/dynamic scan over the first template's segments, then the
tie-breaking comparison. -/
def sortCompiledRoutes (a b : RouteIdentity) : Int :=
  match cmpSegs (splitSlash a.pathname) (splitSlash b.pathname) with
  | some v => v
  | none => tieCmp a b

/-- The same scanning loop, on the lists of dynamic-flags only: `cmpSegs`
depends on the segments exclusively through `segIsDyn`. -/
def cmpFlags : List Bool → List Bool → Option Int
  | [], _ => none
  | a :: as, [] => if a then some 1 else cmpFlags as []
  | a :: as, b :: bs =>
    if a && b then cmpFlags as bs
    else if a then some 1
    else if b then some (-1)
    else cmpFlags as bs

/-! ## Percent/escape-encoding (`querystring.escape` / `querystring.unescape`)

The worker decodes positional captures with `unescape` from `querystring`.
These collaborators are embedded here: `escape` percent-encodes the UTF-8
bytes of every character outside the unreserved set; `unescape` decodes
`%XX` triples to bytes and UTF-8-decodes the resulting byte stream (the
lenient decoding used by `querystring.unescape`). -/

/-- UTF-8 encoding of a Unicode code point, as a list of byte values. -/
def utf8Bytes (n : Nat) : List Nat :=
  if n < 0x80 then [n]
  else if n < 0x800 then [0xC0 + n / 64, 0x80 + n % 64]
  else if n < 0x10000 then [0xE0 + n / 4096, 0x80 + n / 64 % 64, 0x80 + n % 64]
  else [0xF0 + n / 262144, 0x80 + n / 4096 % 64, 0x80 + n / 64 % 64, 0x80 + n % 64]

/-- Upper-case hexadecimal digit for a value below 16. -/
def hexDigit (k : Nat) : Char :=
  if k < 10 then Char.ofNat (48 + k) else Char.ofNat (55 + k)

/-- Value of a hexadecimal digit character (either case), if it is one. -/
def hexVal (c : Char) : Option Nat :=
  if 48 ≤ c.toNat ∧ c.toNat ≤ 57 then some (c.toNat - 48)
  else if 65 ≤ c.toNat ∧ c.toNat ≤ 70 then some (c.toNat - 55)
  else if 97 ≤ c.toNat ∧ c.toNat ≤ 102 then some (c.toNat - 87)
  else none

/-- The characters `querystring.escape` leaves unencoded:
`A-Z a-z 0-9 - _ . ~ ! * ( )` and the apostrophe (code 39). -/
def isUnreservedChar (c : Char) : Bool :=
  (65 ≤ c.toNat && c.toNat ≤ 90) || (97 ≤ c.toNat && c.toNat ≤ 122) ||
    (48 ≤ c.toNat && c.toNat ≤ 57) ||
    c = '-' || c = '_' || c = '.' || c = '~' || c = '!' || c = '*' ||
    c = Char.ofNat 39 || c = '(' || c = ')'

/-- Percent-encode a character list (`querystring.escape`). -/
def escapeChars (cs : List Char) : List Char :=
  cs.flatMap fun c =>
    if isUnreservedChar c then [c]
    else (utf8Bytes c.toNat).flatMap fun b => ['%', hexDigit (b / 16), hexDigit (b % 16)]

/-- Embedding of `querystring.escape`. -/
def escape (s : String) : String := ⟨escapeChars s.data⟩

/-- The Unicode replacement character, emitted by lenient decoding on
malformed byte sequences. -/
def replChar : Char := Char.ofNat 0xFFFD

/-- Whether a byte value is a UTF-8 continuation byte. -/
def isCont (b : Nat) : Bool := 0x80 ≤ b && b < 0xC0

/-- Parse the two hex digits after a percent sign, if present. -/
def percentStep : List Char → Option (Nat × List Char)
  | h :: l :: rest2 =>
    match hexVal h, hexVal l with
    | some hi, some lo => some (16 * hi + lo, rest2)
    | _, _ => none
  | _ => none

def unescapeBytes (l : List Char) : List Nat :=
  match l with
  | [] => []
  | c :: rest =>
    if c = '%' then
      match hps : percentStep rest with
      | some (b, rest2) => b :: unescapeBytes rest2
      | none => utf8Bytes c.toNat ++ unescapeBytes rest
    else utf8Bytes c.toNat ++ unescapeBytes rest
  termination_by l.length
  decreasing_by
    · simp only [List.length_cons]
      refine Nat.lt_succ_of_lt ?_
      rcases rest with - | ⟨h1, rest1⟩
      · simp [percentStep] at hps
      rcases rest1 with - | ⟨l1, r2⟩
      · simp [percentStep] at hps
      simp only [percentStep] at hps
      cases hh : hexVal h1 <;> cases hl : hexVal l1 <;> rw [hh, hl] at hps <;>
        simp at hps
      obtain ⟨-, rfl⟩ := hps
      simp
      omega
    · simp
    · simp

def dec2 (b : Nat) : List Nat → Char × List Nat
  | b2 :: rest2 =>
    if isCont b2 then (Char.ofNat ((b - 0xC0) * 64 + (b2 - 0x80)), rest2)
    else (replChar, b2 :: rest2)
  | [] => (replChar, [])

def dec3 (b : Nat) : List Nat → Char × List Nat
  | b2 :: b3 :: rest3 =>
    if isCont b2 && isCont b3 then
      (Char.ofNat ((b - 0xE0) * 4096 + (b2 - 0x80) * 64 + (b3 - 0x80)), rest3)
    else (replChar, b2 :: b3 :: rest3)
  | r => (replChar, r)

def dec4 (b : Nat) : List Nat → Char × List Nat
  | b2 :: b3 :: b4 :: rest4 =>
    if isCont b2 && isCont b3 && isCont b4 then
      (Char.ofNat ((b - 0xF0) * 262144 + (b2 - 0x80) * 4096 + (b3 - 0x80) * 64 +
        (b4 - 0x80)), rest4)
    else (replChar, b2 :: b3 :: b4 :: rest4)
  | r => (replChar, r)

def decodeStep (b : Nat) (rest : List Nat) : Char × List Nat :=
  if b < 0x80 then (Char.ofNat b, rest)
  else if 0xC2 ≤ b && b < 0xE0 then dec2 b rest
  else if 0xE0 ≤ b && b < 0xF0 then dec3 b rest
  else if 0xF0 ≤ b && b < 0xF5 then dec4 b rest
  else (replChar, rest)

def utf8Decode (l : List Nat) : List Char :=
  match l with
  | [] => []
  | b :: rest => (decodeStep b rest).1 :: utf8Decode (decodeStep b rest).2
  termination_by l.length
  decreasing_by
    simp only [List.length_cons]
    refine Nat.lt_succ_of_le ?_
    unfold decodeStep
    split
    · exact le_refl _
    · split
      · rcases rest with - | ⟨b2, rest2⟩
        · simp [dec2]
        · simp only [dec2]
          split <;> simp
      · split
        · rcases rest with - | ⟨b2, - | ⟨b3, rest3⟩⟩
          · simp [dec3]
          · simp [dec3]
          · simp only [dec3]
            split <;> simp <;> omega
        · split
          · rcases rest with - | ⟨b2, - | ⟨b3, - | ⟨b4, rest4⟩⟩⟩
            · simp [dec4]
            · simp [dec4]
            · simp [dec4]
            · simp only [dec4]
              split <;> simp <;> omega
          · exact le_refl _

/-- Embedding of `querystring.unescape`. -/
def unescape (s : String) : String := ⟨utf8Decode (unescapeBytes s.data)⟩

/-! ## Structural matching and parameter capture

Modelled from the spec: "`paramPattern` matches a candidate path iff the path
is structurally conformant (same segment count, literal segments equal,
bracketed segments bind one segment each)", and extraction takes "the
positional captures in template order".  The generated `paramExtract` regexes
themselves are build artifacts that are not part of the source tree. -/

/-- Modelled from the spec: structural conformance of a candidate segment
list to a template segment list — same segment count, literal segments equal,
dynamic segments bind anything. -/
def structMatchSegs (ts ps : List Seg) : Bool :=
  (ts.length == ps.length) && (List.zip ts ps).all fun tp => segIsDyn tp.1 || tp.1 == tp.2

/-- Modelled from the spec: the test `identity.paramExtract.test(path)`. -/
def paramPatternTest (tmpl path : String) : Bool :=
  structMatchSegs (splitSlash tmpl) (splitSlash path)

/-- Modelled from the spec: the positional captures of `path.match(paramExtract)`
— the candidate path's segments at the template's dynamic positions, in
template order. -/
def capturesSegs (ts ps : List Seg) : List Seg :=
  (List.zip ts ps).filterMap fun tp => if segIsDyn tp.1 then some tp.2 else none

/-- String-level positional captures for a template and a concrete path. -/
def paramCaptures (tmpl path : String) : List String :=
  (capturesSegs (splitSlash tmpl) (splitSlash path)).map fun l => String.mk l

/-- Embedding of `_.zipObject(paramKeys, paramValues.map(unescape))`: the
`params` mapping of the winning identity (when the pattern matches, the
capture list has exactly `paramKeys.length` entries, per spec invariant). -/
def extractParams (keys : List String) (tmpl path : String) : List (String × String) :=
  List.zip keys ((paramCaptures tmpl path).map unescape)

/-! ## Route registry: filtering and specificity ordering (`getIdentities`) -/

/-- The ordering relation fed to `Array.prototype.sort`: `a` precedes `b`
when the comparator does not place `a` after `b`. -/
def routeLE (a b : RouteIdentity) : Prop := sortCompiledRoutes a b ≤ 0

instance : DecidableRel routeLE := fun a b =>
  inferInstanceAs (Decidable (sortCompiledRoutes a b ≤ 0))

/-- Embedding of `getIdentities` (with the discovered identity modules as an
explicit input): keep the identities whose pattern matches the request path,
then sort with `sortCompiledRoutes` (a stable comparator sort, embedded as
insertion sort). -/
def getIdentities (ids : List RouteIdentity) (path : String) : List RouteIdentity :=
  List.insertionSort routeLE (ids.filter fun i => paramPatternTest i.pathname path)

/-! ## Request context, responses, thrown values -/

/-- A deeply mergeable JSON-like value (the shape of `CustomRequestData`). -/
inductive JVal where
  | str (s : String)
  | num (n : Int)
  | obj (fields : List (String × JVal))
  deriving Repr

/-- The top-level custom-data bag: a JSON-like object. -/
abbrev JObj := List (String × JVal)

mutual

/-- Embedding of lodash `_.merge` on values: objects merge recursively
key-by-key, any other source value overwrites the destination. -/
def mergeJVal : JVal → JVal → JVal
  | JVal.obj fa, JVal.obj fb => JVal.obj (mergeFields fa fb)
  | _, b => b
  termination_by a b => (2 * sizeOf b, 0)

/-- Merge every field of the source object into the destination fields. -/
def mergeFields : JObj → JObj → JObj
  | acc, [] => acc
  | acc, (k, v) :: rest => mergeFields (mergeField acc k v) rest
  termination_by acc l => (2 * sizeOf l, 0)

/-- Merge one source field into the destination fields: merge into an
existing key in place, or append a fresh key at the end. -/
def mergeField : JObj → String → JVal → JObj
  | [], k, v => [(k, v)]
  | (k', v') :: t, k, v =>
    if k' = k then (k', mergeJVal v' v) :: t
    else (k', v') :: mergeField t k v
  termination_by acc k v => (2 * sizeOf v + 1, acc.length)

end

/-- `_.merge(custom, c)` where `c` may be `undefined` (lodash ignores an
`undefined` source, leaving the destination unchanged). -/
def mergeObjOpt (base : JObj) : Option JObj → JObj
  | none => base
  | some o => mergeFields base o

/-- A response body: a file stream or a structured `{message}` value. -/
inductive Body where
  | stream (file : String)
  | message (msg : String)
  deriving DecidableEq, Repr

/-- An `IntREST.IntResponse`: status, headers, optional body. -/
structure IntResponse where
  status : Nat
  headers : List (String × String) := []
  body : Option Body := none
  deriving DecidableEq, Repr

/-- A JavaScript value reaching the orchestrator's `catch`: an `Error`
instance (carrying its message), a non-null object (response-shaped), or a
primitive value. -/
inductive Thrown where
  | err (msg : String)
  | obj (resp : IntResponse)
  | prim (s : String)
  deriving DecidableEq, Repr

/-- The wire-level request data handed to the worker. -/
structure RequestData where
  method : String
  path : String
  headers : List (String × String)
  query : String

/-- The mutable per-request context (`IntREST.IntRequest`). -/
structure IntRequest where
  method : String
  path : String
  headers : List (String × String)
  query : String
  params : List (String × String)
  custom : JObj

/-- The context built at the top of `tunnel`: the request data with empty
`params` (and an empty custom bag). -/
def mkContext (d : RequestData) : IntRequest :=
  ⟨d.method, d.path, d.headers, d.query, [], []⟩

/-- A route handler: may return a response, return nothing, or throw. -/
abbrev Handler := IntRequest → Except Thrown (Option IntResponse)

/-! ## Middleware: discovery (`getMiddlewares`) and the chain executor -/

/-- Whether a character is a slash or backslash (the class `[\\/]`). -/
def isSlash (c : Char) : Bool := c = '/' || c = '\\'

/-- Collapse every run of slashes/backslashes to a single `/`
(the first `replace` of `normalizePath`). -/
def collapseChars : List Char → List Char
  | [] => []
  | [c] => if isSlash c then ['/'] else [c]
  | c1 :: c2 :: rest =>
    if isSlash c1 && isSlash c2 then collapseChars (c2 :: rest)
    else (if isSlash c1 then '/' else c1) :: collapseChars (c2 :: rest)

/-- Embedding of `normalizePath` from `src/utils/path.ts`: collapse slash
runs, then strip the leading slash. -/
def normalizePath (s : String) : String :=
  ⟨(collapseChars s.data).dropWhile (· = '/')⟩

/-- Join three path fragments with `/` and normalize, the
`normalizePath(join(basePath, p, 'middleware.mjs'))` composition (no `.`/`..`
fragments occur in these inputs, so POSIX `join` is plain concatenation
followed by slash collapsing). -/
def pjoin3 (a b c : String) : String :=
  normalizePath ⟨a.data ++ '/' :: b.data ++ '/' :: c.data⟩

/-- Intercalate segments with `/` (the `l.slice(0, i + 1).join('/')`). -/
def intercalateChars : List Seg → List Char
  | [] => []
  | [x] => x
  | x :: y :: rest => x ++ '/' :: intercalateChars (y :: rest)

/-- Segment list back to a slash-separated string. -/
def joinSegs (segs : List Seg) : String := ⟨intercalateChars segs⟩

/-- The middleware module file paths `getMiddlewares` accepts for a resolved
route pathname: index `0` of the split maps to the root anchor `/`, index
`i > 0` maps to the cumulative prefix of the first `i + 1` segments; each
anchor is joined with the compiled base path and `middleware.mjs`. -/
def middlewareCodePaths (basePath pathname : String) : List String :=
  let segs := splitSlash pathname
  ((List.range segs.length).map fun i =>
    if 0 < i then joinSegs (segs.take (i + 1)) else "/").map
    fun p => pjoin3 basePath p "middleware.mjs"

/-- What one middleware invocation does with the context it receives: return
a response, invoke the continuation with optional custom data, or throw.
(The per-step timeout is a real-time race and is not part of this model.) -/
inductive MWStep where
  | respond (r : IntResponse)
  | proceed (c : Option JObj)
  | raise (t : Thrown)

/-- A discovered middleware file: its path and, when the loaded module
exports a function, its behaviour. -/
structure MWFile where
  path : String
  handler : Option (IntRequest → MWStep)

/-- A loaded middleware module: the anchor pathname
(`p.replace(basePath, '')`) and the handler. -/
structure MiddlewareModule where
  pathname : String
  handler : IntRequest → MWStep

/-- Embedding of `p.replace(basePath, '')` (the base path occurs as a prefix
of every discovered file path). -/
def dropPrefixStr (pre s : String) : String :=
  if pre.data.isPrefixOf s.data then ⟨s.data.drop pre.data.length⟩ else s

/-- Embedding of `getMiddlewares` (with the glob result as an explicit input,
in discovery order): keep the files whose path is one of the prefix-derived
code paths, preserving discovery order, then keep those whose module exports
a function. -/
def getMiddlewares (basePath : String) (files : List MWFile) (pathname : String) :
    List MiddlewareModule :=
  let codePaths := middlewareCodePaths basePath pathname
  (files.filter fun f => codePaths.contains f.path).filterMap fun f =>
    f.handler.map fun h => ⟨dropPrefixStr basePath f.path, h⟩

/-- The observable outcome of one chain run: the result handed back to the
orchestrator, the final context, how many middleware steps executed, and
whether the terminal handler ran. -/
structure ChainTrace where
  result : Except Thrown (Option IntResponse)
  finalCtx : IntRequest
  stepsRun : Nat
  handlerRan : Bool

/-- The continuation's effect on the context: deep-merge the optional custom
data into `context.custom` (everything else is untouched). -/
def applyContinuation (ctx : IntRequest) (c : Option JObj) : IntRequest :=
  { ctx with custom := mergeObjOpt ctx.custom c }

/-- Embedding of `callRecursiveMiddlewares`: with no middleware left, run the
handler; otherwise run the head middleware — a returned response or a thrown
value ends the chain at this step, invoking the continuation merges the data
and recurses on the tail. -/
def callRecursiveMiddlewares :
    List MiddlewareModule → IntRequest → Handler → ChainTrace
  | [], ctx, h => ⟨h ctx, ctx, 0, true⟩
  | m :: rest, ctx, h =>
    match m.handler ctx with
    | MWStep.respond r => ⟨Except.ok (some r), ctx, 1, false⟩
    | MWStep.raise t => ⟨Except.error t, ctx, 1, false⟩
    | MWStep.proceed c =>
      let t := callRecursiveMiddlewares rest (applyContinuation ctx c) h
      ⟨t.result, t.finalCtx, t.stepsRun + 1, t.handlerRan⟩

/-! ## The dispatch orchestrator (`tunnel`) -/

/-- The configuration the worker consumes: optional message overrides. -/
structure Config where
  notFound : Option String := none
  methodNotAllowed : Option String := none

/-- The 404 response (`config.messages?.NOT_FOUND || 'Not found'`). -/
def notFoundResponse (c : Config) : IntResponse :=
  { status := 404, headers := [("Content-Type", "application/json")],
    body := some (Body.message (c.notFound.getD "Not found")) }

/-- The 405 response
(`config.messages?.METHOD_NOT_ALLOWED || 'Method not allowed'`). -/
def methodNotAllowedResponse (c : Config) : IntResponse :=
  { status := 405, headers := [("Content-Type", "application/json")],
    body := some (Body.message (c.methodNotAllowed.getD "Method not allowed")) }

/-- The no-content response emitted when the chain produces nothing. -/
def noContentResponse : IntResponse := { status := 204 }

/-- A loaded route module: handlers keyed by HTTP method, the wildcard `ALL`
export, and the `default` export. -/
structure RouteModule where
  byMethod : String → Option Handler
  all : Option Handler
  dflt : Option Handler

/-- Embedding of `routeModule[method] || routeModule['ALL'] ||
routeModule.default`. -/
def effectiveHandler (m : RouteModule) (method : String) : Option Handler :=
  match m.byMethod method with
  | some h => some h
  | none =>
    match m.all with
    | some h => some h
    | none => m.dflt

/-- Embedding of `routes.find((r) => typeof r.handler === 'function')`:
the first match (in specificity order) exposing a usable handler. -/
def selectRoute (ids : List RouteIdentity) (moduleOf : RouteIdentity → RouteModule)
    (method : String) : Option (Option Handler × RouteIdentity) :=
  (ids.map fun i => (effectiveHandler (moduleOf i) method, i)).find? fun r => r.1.isSome

/-- Every collaborator input `tunnel` consumes, made explicit: configuration,
request data, the static-asset collaborators, the discovered identities and
their loaded modules, and the discovered middleware files in glob order. -/
structure TunnelArgs where
  basePath : String
  config : Config
  data : RequestData
  staticFolder : Option String
  staticFileIn : String → Option String
  mimeLookup : String → Option String
  identities : List RouteIdentity
  moduleOf : RouteIdentity → RouteModule
  middlewareFiles : List MWFile

/-- Map a finished chain to the orchestrator's result: a thrown value
propagates, a response is used as-is, nothing becomes no-content. -/
def finishChain (t : ChainTrace) : Except Thrown IntResponse :=
  match t.result with
  | Except.error e => Except.error e
  | Except.ok (some r) => Except.ok r
  | Except.ok none => Except.ok noContentResponse

/-- The routing part of `tunnel` (the body of its `try` block): filter and
sort identities, 404 when none match, resolve the method handler, 405 when no
match exposes one, otherwise populate `params`, collect the middleware and
run the chain. -/
def dispatch (a : TunnelArgs) : Except Thrown IntResponse :=
  let ids := getIdentities a.identities a.data.path
  if ids.isEmpty then Except.ok (notFoundResponse a.config)
  else
    match selectRoute ids a.moduleOf a.data.method with
    | none => Except.ok (methodNotAllowedResponse a.config)
    | some (none, _) => Except.ok (methodNotAllowedResponse a.config)
    | some (some h, ident) =>
      let ctx := { mkContext a.data with
        params := extractParams ident.paramKeys ident.pathname a.data.path }
      let mws := getMiddlewares a.basePath a.middlewareFiles ident.pathname
      finishChain (callRecursiveMiddlewares mws ctx h)

/-- What the worker does with a request: hand a response to the response
sink, or re-throw a value out of the worker. -/
inductive TunnelOutcome where
  | sent (r : IntResponse)
  | unhandled (t : Thrown)
  deriving DecidableEq, Repr

/-- The orchestrator's `catch` boundary: an `Error` becomes the 500 response
carrying its message, any other non-null object is sent as the response, and
a primitive thrown value is re-thrown (`throw error`). -/
def translateResult : Except Thrown IntResponse → TunnelOutcome
  | Except.ok r => TunnelOutcome.sent r
  | Except.error (Thrown.err m) =>
    TunnelOutcome.sent
      { status := 500, headers := [("Content-Type", "application/json")],
        body := some (Body.message m) }
  | Except.error (Thrown.obj r) => TunnelOutcome.sent r
  | Except.error (Thrown.prim s) => TunnelOutcome.unhandled (Thrown.prim s)

/-- Embedding of `tunnel`: serve a static asset when the static folder
exists, a file for the request path is found AND its MIME type resolves;
otherwise run the routing pipeline under the `catch` boundary. -/
def tunnel (a : TunnelArgs) : TunnelOutcome :=
  match a.staticFolder with
  | some folder =>
    match a.staticFileIn folder with
    | some file =>
      match a.mimeLookup file with
      | some mt =>
        TunnelOutcome.sent
          { status := 200, headers := [("Content-Type", mt)],
            body := some (Body.stream file) }
      | none => translateResult (dispatch a)
    | none => translateResult (dispatch a)
  | none => translateResult (dispatch a)

/-- Substitute percent-encoded values into the template's dynamic segments,
in template order (the path-construction side of the spec's round-trip
property). -/
def substSegs : List Seg → List String → List Seg
  | [], _ => []
  | t :: ts, vs =>
    if segIsDyn t then
      match vs with
      | v :: vs' => (escape v).data :: substSegs ts vs'
      | [] => t :: substSegs ts []
    else t :: substSegs ts vs

/-- The concrete path obtained by substituting encoded values into a
template. -/
def substPath (tmpl : String) (vals : List String) : String :=
  joinSegs (substSegs (splitSlash tmpl) vals)

/-! ## Concrete fixtures used by per-claim witnesses and counterexamples -/

/-- The literal template of the spec's `users/me` versus `users/[id]`
example. -/
def c2Lit : RouteIdentity := ⟨"users/me", "users/me", []⟩

/-- The dynamic template of the spec's `users/me` versus `users/[id]`
example. -/
def c2Dyn : RouteIdentity := ⟨"users/[id]", "users/[id]", ["id"]⟩

/-- A handler that returns no content. -/
def c2Handler : Handler := fun _ => Except.ok none

/-- Route modules exposing `c2Handler` for every method. -/
def c2ModuleOf : RouteIdentity → RouteModule := fun _ => ⟨fun _ => some c2Handler, none, none⟩

/-- A single-segment route identity. -/
def c3Identity : RouteIdentity := ⟨"x", "x", []⟩

/-- Arguments whose only identity matches the request path but whose module
exposes no handler for any method. -/
def c3Args : TunnelArgs :=
  { basePath := "app", config := {}, data := ⟨"GET", "x", [], ""⟩,
    staticFolder := none, staticFileIn := fun _ => none,
    mimeLookup := fun _ => none, identities := [c3Identity],
    moduleOf := fun _ => ⟨fun _ => none, none, none⟩, middlewareFiles := [] }

/-- The response returned by the short-circuiting middleware fixture. -/
def c5Resp : IntResponse := { status := 201 }

/-- A middleware that always proceeds with no data. -/
def c5Pre : MiddlewareModule := ⟨"/middleware.mjs", fun _ => MWStep.proceed none⟩

/-- A middleware that always responds with `c5Resp`. -/
def c5Mid : MiddlewareModule := ⟨"/a/middleware.mjs", fun _ => MWStep.respond c5Resp⟩

/-- A middleware after the short-circuiting one; it must never run. -/
def c5Post : MiddlewareModule := ⟨"/a/b/middleware.mjs", fun _ => MWStep.respond { status := 500 }⟩

/-- The request context for the chain fixtures. -/
def c5Ctx : IntRequest := mkContext ⟨"GET", "a/b", [], ""⟩

/-- The terminal handler for the chain fixtures. -/
def c5Handler : Handler := fun _ => Except.ok none

/-- Arguments where the static collaborators find an existing asset for the
request path but its MIME type does not resolve, and no route matches. -/
def c7Args : TunnelArgs :=
  { basePath := "app", config := {}, data := ⟨"GET", "readme", [], ""⟩,
    staticFolder := some "public", staticFileIn := fun _ => some "public/readme",
    mimeLookup := fun _ => none, identities := [],
    moduleOf := fun _ => ⟨fun _ => none, none, none⟩, middlewareFiles := [] }

/-- Arguments where the static collaborators find an asset whose MIME type
resolves, while a route for the identical path also exists. -/
def c7ServeArgs : TunnelArgs :=
  { basePath := "app", config := {}, data := ⟨"GET", "readme.txt", [], ""⟩,
    staticFolder := some "public", staticFileIn := fun _ => some "public/readme.txt",
    mimeLookup := fun _ => some "text/plain",
    identities := [⟨"readme.txt", "readme.txt", []⟩],
    moduleOf := fun _ => ⟨fun _ => some (fun _ => Except.ok none), none, none⟩,
    middlewareFiles := [] }

/-- A single-segment route identity for the error-boundary fixtures. -/
def c8Identity : RouteIdentity := ⟨"x", "x", []⟩

/-- A handler that throws a primitive (non-object, non-Error) value. -/
def c8PrimHandler : Handler := fun _ => Except.error (Thrown.prim "boom")

/-- A handler that throws an `Error` instance. -/
def c8ErrHandler : Handler := fun _ => Except.error (Thrown.err "boom")

/-- Arguments whose route handler throws a primitive value. -/
def c8PrimArgs : TunnelArgs :=
  { basePath := "app", config := {}, data := ⟨"GET", "x", [], ""⟩,
    staticFolder := none, staticFileIn := fun _ => none, mimeLookup := fun _ => none,
    identities := [c8Identity],
    moduleOf := fun _ => ⟨fun _ => some c8PrimHandler, none, none⟩,
    middlewareFiles := [] }

/-- Arguments whose route handler throws an `Error`. -/
def c8ErrArgs : TunnelArgs :=
  { basePath := "app", config := {}, data := ⟨"GET", "x", [], ""⟩,
    staticFolder := none, staticFileIn := fun _ => none, mimeLookup := fun _ => none,
    identities := [c8Identity],
    moduleOf := fun _ => ⟨fun _ => some c8ErrHandler, none, none⟩,
    middlewareFiles := [] }

/-- A middleware behaviour that always proceeds (used by the C6 fixtures). -/
def c6Handler : IntRequest → MWStep := fun _ => MWStep.proceed none

/-- A middleware file anchored at the one-segment prefix `a` of `a/b`. -/
def c6SkippedFile : MWFile := ⟨"app/a/middleware.mjs", some c6Handler⟩

/-- A middleware file anchored at the full pathname `a/b`. -/
def c6NestedFile : MWFile := ⟨"app/a/b/middleware.mjs", some c6Handler⟩

/-- A middleware file anchored at the root. -/
def c6RootFile : MWFile := ⟨"app/middleware.mjs", some c6Handler⟩

theorem cmpSegs_eq_cmpFlags (as bs : List Seg) :
    cmpSegs as bs = cmpFlags (as.map segIsDyn) (bs.map segIsDyn) := by
  induction as generalizing bs with
  | nil => simp [cmpSegs, cmpFlags]
  | cons a as ih =>
    cases bs with
    | nil =>
      simp only [cmpSegs, cmpFlags, List.map_cons, List.map_nil]
      cases segIsDyn a <;> simp [ih]
    | cons b bs =>
      simp only [cmpSegs, cmpFlags, List.map_cons]
      cases segIsDyn a <;> cases segIsDyn b <;> simp [ih]

/-- On flag lists of equal length, the scan is antisymmetric: swapping the
arguments negates the result. -/
theorem cmpFlags_antisymm (as bs : List Bool) (h : as.length = bs.length) :
    cmpFlags as bs = (cmpFlags bs as).map (fun v => -v) := by
  induction as generalizing bs with
  | nil =>
    cases bs with
    | nil => simp [cmpFlags]
    | cons b bs => simp at h
  | cons a as ih =>
    cases bs with
    | nil => simp at h
    | cons b bs =>
      simp only [List.length_cons, Nat.add_right_cancel_iff] at h
      simp only [cmpFlags]
      cases a <;> cases b <;> simp [ih _ h]

/-- On flag lists of equal length, the scan returns `none` iff the flag lists
are equal. -/
theorem cmpFlags_none_iff (as bs : List Bool) (h : as.length = bs.length) :
    cmpFlags as bs = none ↔ as = bs := by
  induction as generalizing bs with
  | nil =>
    cases bs with
    | nil => simp [cmpFlags]
    | cons b bs => simp at h
  | cons a as ih =>
    cases bs with
    | nil => simp at h
    | cons b bs =>
      simp only [List.length_cons, Nat.add_right_cancel_iff] at h
      simp only [cmpFlags]
      cases a <;> cases b <;> simp [ih _ h]

/-- On flag lists of equal length, a strict scan outcome is transitive. -/
theorem cmpFlags_trans (as bs cs : List Bool)
    (hab : as.length = bs.length) (hbc : bs.length = cs.length)
    (h1 : cmpFlags as bs = some (-1)) (h2 : cmpFlags bs cs = some (-1)) :
    cmpFlags as cs = some (-1) := by
  induction as generalizing bs cs with
  | nil =>
    cases bs with
    | nil => simp [cmpFlags] at h1
    | cons b bs => simp at hab
  | cons a as ih =>
    cases bs with
    | nil => simp at hab
    | cons b bs =>
      cases cs with
      | nil => simp at hbc
      | cons c cs =>
        have hab' : as.length = bs.length := by simpa using hab
        have hbc' : bs.length = cs.length := by simpa using hbc
        clear hab hbc
        simp only [cmpFlags] at h1 h2 ⊢
        cases a <;> cases b <;> cases c <;> simp_all <;>
          exact ih bs cs (by omega) (by omega) h1 h2

theorem charListLt_irrefl (as : List Char) : charListLt as as = false := by
  induction as with
  | nil => rfl
  | cons a as ih => simp [charListLt, ih]

theorem charListLt_cons_iff (a b : Char) (as bs : List Char) :
    charListLt (a :: as) (b :: bs) = true ↔
      a < b ∨ (a = b ∧ charListLt as bs = true) := by
  simp only [charListLt]
  rcases lt_trichotomy a b with h | h | h
  · simp [h]
  · subst h
    simp [lt_irrefl]
  · have h1 : ¬ a < b := lt_asymm h
    have h2 : a ≠ b := ne_of_gt h
    simp [h1, h, h2]

theorem charListLt_asymm (as bs : List Char) (h : charListLt as bs = true) :
    charListLt bs as = false := by
  induction as generalizing bs with
  | nil =>
    cases bs with
    | nil => simp [charListLt] at h
    | cons b bs => rfl
  | cons a as ih =>
    cases bs with
    | nil => simp [charListLt] at h
    | cons b bs =>
      rw [charListLt_cons_iff] at h
      have hn : ¬ charListLt (b :: bs) (a :: as) = true := by
        rw [charListLt_cons_iff]
        rintro (hba | ⟨heq, hba⟩)
        · rcases h with h | ⟨rfl, _⟩
          · exact absurd (lt_trans h hba) (lt_irrefl a)
          · exact absurd hba (lt_irrefl a)
        · rcases h with h | ⟨rfl, h⟩
          · exact absurd (heq ▸ h) (lt_irrefl b)
          · rw [ih bs h] at hba
            exact absurd hba (by simp)
      simpa using hn

theorem charListLt_trans (as bs cs : List Char) (h1 : charListLt as bs = true)
    (h2 : charListLt bs cs = true) : charListLt as cs = true := by
  induction as generalizing bs cs with
  | nil =>
    cases bs with
    | nil => simp [charListLt] at h1
    | cons b bs =>
      cases cs with
      | nil => simp [charListLt] at h2
      | cons c cs => rfl
  | cons a as ih =>
    cases bs with
    | nil => simp [charListLt] at h1
    | cons b bs =>
      cases cs with
      | nil => simp [charListLt] at h2
      | cons c cs =>
        rw [charListLt_cons_iff] at h1 h2 ⊢
        rcases h1 with h1 | ⟨rfl, h1⟩
        · rcases h2 with h2 | ⟨rfl, h2⟩
          · exact Or.inl (lt_trans h1 h2)
          · exact Or.inl h1
        · rcases h2 with h2 | ⟨rfl, h2⟩
          · exact Or.inl h2
          · exact Or.inr ⟨rfl, ih bs cs h1 h2⟩

theorem charListLt_eq_of_not_lt (as bs : List Char)
    (h1 : charListLt as bs = false) (h2 : charListLt bs as = false) : as = bs := by
  induction as generalizing bs with
  | nil =>
    cases bs with
    | nil => rfl
    | cons b bs => simp [charListLt] at h1
  | cons a as ih =>
    cases bs with
    | nil => simp [charListLt] at h2
    | cons b bs =>
      have hn1 : ¬ charListLt (a :: as) (b :: bs) = true := by simp [h1]
      have hn2 : ¬ charListLt (b :: bs) (a :: as) = true := by simp [h2]
      rw [charListLt_cons_iff] at hn1 hn2
      push_neg at hn1 hn2
      rcases lt_trichotomy a b with hc | hc | hc
      · exact absurd hn1.1 (not_le.mpr hc)
      · subst hc
        have e1 : charListLt as bs = false := by simpa using hn1.2 rfl
        have e2 : charListLt bs as = false := by simpa using hn2.2 rfl
        rw [ih bs e1 e2]
      · exact absurd hn2.1 (not_le.mpr hc)

theorem tieCmp_neg (a b : RouteIdentity) : tieCmp a b = - tieCmp b a := by
  unfold tieCmp
  by_cases hab : charListLt (routeKey a) (routeKey b) = true
  · rw [if_pos hab, if_neg (by simp [charListLt_asymm _ _ hab]), if_pos hab]
  · rw [if_neg hab]
    by_cases hba : charListLt (routeKey b) (routeKey a) = true
    · rw [if_pos hba, if_pos hba]
      norm_num
    · rw [if_neg hba, if_neg hba, if_neg hab]
      omega

theorem tieCmp_lt_iff (a b : RouteIdentity) :
    tieCmp a b < 0 ↔ charListLt (routeKey a) (routeKey b) = true ∨
      (routeKey a = routeKey b ∧ b.pathname.length < a.pathname.length) := by
  unfold tieCmp
  by_cases hab : charListLt (routeKey a) (routeKey b) = true
  · simp [hab]
  · rw [if_neg hab]
    by_cases hba : charListLt (routeKey b) (routeKey a) = true
    · rw [if_pos hba]
      constructor
      · intro h
        exact absurd h (by norm_num)
      · rintro (h | ⟨he, _⟩)
        · exact absurd h hab
        · rw [he, charListLt_irrefl] at hba
          exact absurd hba (by simp)
    · rw [if_neg hba]
      have he : routeKey a = routeKey b :=
        charListLt_eq_of_not_lt _ _ (by simpa using hab) (by simpa using hba)
      constructor
      · intro h
        exact Or.inr ⟨he, by omega⟩
      · rintro (h | ⟨_, hl⟩)
        · exact absurd h hab
        · omega

theorem tieCmp_lt_trans (a b c : RouteIdentity) (h1 : tieCmp a b < 0)
    (h2 : tieCmp b c < 0) : tieCmp a c < 0 := by
  rw [tieCmp_lt_iff] at h1 h2 ⊢
  rcases h1 with h1 | ⟨h1e, h1l⟩ <;> rcases h2 with h2 | ⟨h2e, h2l⟩
  · exact Or.inl (charListLt_trans _ _ _ h1 h2)
  · exact Or.inl (h2e ▸ h1)
  · exact Or.inl (h1e ▸ h2)
  · exact Or.inr ⟨h1e.trans h2e, lt_trans h2l h1l⟩

theorem cmpFlags_values (as bs : List Bool) (v : Int)
    (h : cmpFlags as bs = some v) : v = 1 ∨ v = -1 := by
  induction as generalizing bs with
  | nil => simp [cmpFlags] at h
  | cons a as ih =>
    cases bs with
    | nil =>
      simp only [cmpFlags] at h
      cases a with
      | false =>
        simp only [Bool.false_eq_true, if_false] at h
        exact ih [] h
      | true =>
        simp only [if_true] at h
        exact Or.inl (by injection h with h; omega)
    | cons b bs =>
      simp only [cmpFlags] at h
      cases a <;> cases b <;> simp only [Bool.and_self, Bool.and_false,
        Bool.false_and, Bool.true_and, Bool.false_eq_true, if_true, if_false] at h
      · exact ih bs h
      · exact Or.inr (by injection h with h; omega)
      · exact Or.inl (by injection h with h; omega)
      · exact ih bs h

theorem sortCompiledRoutes_flags_some (a b : RouteIdentity) (v : Int)
    (h : cmpFlags ((splitSlash a.pathname).map segIsDyn)
      ((splitSlash b.pathname).map segIsDyn) = some v) :
    sortCompiledRoutes a b = v := by
  unfold sortCompiledRoutes
  rw [cmpSegs_eq_cmpFlags, h]

theorem sortCompiledRoutes_flags_none (a b : RouteIdentity)
    (h : cmpFlags ((splitSlash a.pathname).map segIsDyn)
      ((splitSlash b.pathname).map segIsDyn) = none) :
    sortCompiledRoutes a b = tieCmp a b := by
  unfold sortCompiledRoutes
  rw [cmpSegs_eq_cmpFlags, h]

theorem sortCompiledRoutes_antisymm_of_length (a b : RouteIdentity)
    (h : (splitSlash a.pathname).length = (splitSlash b.pathname).length) :
    sortCompiledRoutes a b = - sortCompiledRoutes b a := by
  have hsym := cmpFlags_antisymm ((splitSlash a.pathname).map segIsDyn)
    ((splitSlash b.pathname).map segIsDyn) (by simpa using h)
  cases hba : cmpFlags ((splitSlash b.pathname).map segIsDyn)
      ((splitSlash a.pathname).map segIsDyn) with
  | some w =>
    rw [hba, Option.map_some'] at hsym
    rw [sortCompiledRoutes_flags_some a b _ hsym,
      sortCompiledRoutes_flags_some b a w hba]
  | none =>
    rw [hba, Option.map_none'] at hsym
    rw [sortCompiledRoutes_flags_none a b hsym,
      sortCompiledRoutes_flags_none b a hba]
    exact tieCmp_neg a b

theorem sortCompiledRoutes_lt_trans_of_length (a b c : RouteIdentity)
    (hab : (splitSlash a.pathname).length = (splitSlash b.pathname).length)
    (hbc : (splitSlash b.pathname).length = (splitSlash c.pathname).length)
    (h1 : sortCompiledRoutes a b < 0) (h2 : sortCompiledRoutes b c < 0) :
    sortCompiledRoutes a c < 0 := by
  have lab : ((splitSlash a.pathname).map segIsDyn).length =
      ((splitSlash b.pathname).map segIsDyn).length := by simpa using hab
  have lbc : ((splitSlash b.pathname).map segIsDyn).length =
      ((splitSlash c.pathname).map segIsDyn).length := by simpa using hbc
  cases hfab : cmpFlags ((splitSlash a.pathname).map segIsDyn)
      ((splitSlash b.pathname).map segIsDyn) with
  | some v =>
    rw [sortCompiledRoutes_flags_some a b v hfab] at h1
    have hv : v = -1 := by
      rcases cmpFlags_values _ _ _ hfab with rfl | rfl
      · omega
      · rfl
    subst hv
    cases hfbc : cmpFlags ((splitSlash b.pathname).map segIsDyn)
        ((splitSlash c.pathname).map segIsDyn) with
    | some w =>
      rw [sortCompiledRoutes_flags_some b c w hfbc] at h2
      have hw : w = -1 := by
        rcases cmpFlags_values _ _ _ hfbc with rfl | rfl
        · omega
        · rfl
      subst hw
      rw [sortCompiledRoutes_flags_some a c _
        (cmpFlags_trans _ _ _ lab lbc hfab hfbc)]
      omega
    | none =>
      have he := (cmpFlags_none_iff _ _ lbc).mp hfbc
      rw [sortCompiledRoutes_flags_some a c _ (he ▸ hfab)]
      omega
  | none =>
    have he := (cmpFlags_none_iff _ _ lab).mp hfab
    rw [sortCompiledRoutes_flags_none a b hfab] at h1
    cases hfbc : cmpFlags ((splitSlash b.pathname).map segIsDyn)
        ((splitSlash c.pathname).map segIsDyn) with
    | some w =>
      rw [sortCompiledRoutes_flags_some b c w hfbc] at h2
      have hw : w = -1 := by
        rcases cmpFlags_values _ _ _ hfbc with rfl | rfl
        · omega
        · rfl
      subst hw
      rw [sortCompiledRoutes_flags_some a c _ (he ▸ hfbc)]
      omega
    | none =>
      have he2 := (cmpFlags_none_iff _ _ lbc).mp hfbc
      rw [sortCompiledRoutes_flags_none b c hfbc] at h2
      rw [sortCompiledRoutes_flags_none a c (by rw [he, he2]; exact (cmpFlags_none_iff _ _ rfl).mpr rfl)]
      exact tieCmp_lt_trans a b c h1 h2

/-- C1 (amended): `sortCompiledRoutes` always yields a deterministic outcome
(it is a total function), and over route identities whose templates have
EQUAL segment counts the induced preference is antisymmetric (swapping the
arguments negates the result) and transitive (strict preference composes, so
no cyclic preference arises).  For templates with different segment counts
antisymmetry and transitivity can fail (see the counterexample). -/
theorem C1_sortCompiledRoutes_equal_segment_order (a b c : RouteIdentity)
    (hab : (splitSlash a.pathname).length = (splitSlash b.pathname).length)
    (hbc : (splitSlash b.pathname).length = (splitSlash c.pathname).length) :
    sortCompiledRoutes a b = - sortCompiledRoutes b a ∧
      (sortCompiledRoutes a b < 0 → sortCompiledRoutes b c < 0 →
        sortCompiledRoutes a c < 0) :=
  ⟨sortCompiledRoutes_antisymm_of_length a b hab,
    fun h1 h2 => sortCompiledRoutes_lt_trans_of_length a b c hab hbc h1 h2⟩

theorem C1_witness :
    (splitSlash (RouteIdentity.mk "a/[x]" "a" []).pathname).length =
        (splitSlash (RouteIdentity.mk "b/[x]" "b" []).pathname).length ∧
      (splitSlash (RouteIdentity.mk "b/[x]" "b" []).pathname).length =
        (splitSlash (RouteIdentity.mk "c/[x]" "c" []).pathname).length ∧
      (sortCompiledRoutes (RouteIdentity.mk "a/[x]" "a" [])
            (RouteIdentity.mk "b/[x]" "b" []) =
          - sortCompiledRoutes (RouteIdentity.mk "b/[x]" "b" [])
            (RouteIdentity.mk "a/[x]" "a" []) ∧
        (sortCompiledRoutes (RouteIdentity.mk "a/[x]" "a" [])
              (RouteIdentity.mk "b/[x]" "b" []) < 0 →
          sortCompiledRoutes (RouteIdentity.mk "b/[x]" "b" [])
              (RouteIdentity.mk "c/[x]" "c" []) < 0 →
          sortCompiledRoutes (RouteIdentity.mk "a/[x]" "a" [])
              (RouteIdentity.mk "c/[x]" "c" []) < 0)) :=
  ⟨by decide, by decide,
    C1_sortCompiledRoutes_equal_segment_order _ _ _ (by decide) (by decide)⟩

/-- C1 counterexample: for the identities `A = {pathname := "p/[x]", route := "a"}`
and `B = {pathname := "p", route := "b"}` (different segment counts) the
comparator says both "A sorts after B" and "B sorts after A": comparing `A`
with `B` and `B` with `A` does NOT agree up to sign although the templates
are not byte-identical, so the induced preference is cyclic on `{A, B}`. -/
theorem C1_counterexample :
    sortCompiledRoutes (RouteIdentity.mk "p/[x]" "a" [])
        (RouteIdentity.mk "p" "b" []) = 1 ∧
      sortCompiledRoutes (RouteIdentity.mk "p" "b" [])
        (RouteIdentity.mk "p/[x]" "a" []) = 1 := by
  constructor <;> decide

/-! ## Middleware chain lemmas -/

theorem chainCtx_frame (mws : List MiddlewareModule) (ctx : IntRequest) (h : Handler) :
    (callRecursiveMiddlewares mws ctx h).finalCtx.method = ctx.method ∧
    (callRecursiveMiddlewares mws ctx h).finalCtx.path = ctx.path ∧
    (callRecursiveMiddlewares mws ctx h).finalCtx.headers = ctx.headers ∧
    (callRecursiveMiddlewares mws ctx h).finalCtx.query = ctx.query ∧
    (callRecursiveMiddlewares mws ctx h).finalCtx.params = ctx.params := by
  induction mws generalizing ctx with
  | nil => exact ⟨rfl, rfl, rfl, rfl, rfl⟩
  | cons m rest ih =>
    simp only [callRecursiveMiddlewares]
    cases m.handler ctx with
    | respond r => exact ⟨rfl, rfl, rfl, rfl, rfl⟩
    | raise t => exact ⟨rfl, rfl, rfl, rfl, rfl⟩
    | proceed c => exact ih (applyContinuation ctx c)

theorem chain_all_proceed (mws : List MiddlewareModule) (ctx : IntRequest) (h : Handler)
    (hmws : ∀ m ∈ mws, ∀ c, ∃ d, m.handler c = MWStep.proceed d) :
    ∃ ctx', callRecursiveMiddlewares mws ctx h =
      ⟨h ctx', ctx', mws.length, true⟩ := by
  induction mws generalizing ctx with
  | nil => exact ⟨ctx, rfl⟩
  | cons m rest ih =>
    obtain ⟨d, hd⟩ := hmws m (List.mem_cons_self m rest) ctx
    obtain ⟨ctx', hrec⟩ := ih (applyContinuation ctx d)
      (fun m' hm' => hmws m' (List.mem_cons_of_mem _ hm'))
    refine ⟨ctx', ?_⟩
    simp only [callRecursiveMiddlewares, hd, hrec, List.length_cons]

/-- C10: invoking the continuation with no data (`undefined`) leaves the
context unchanged — in particular `context.custom` — and for any data the
continuation's merge touches only `context.custom`: `method`, `path`,
`headers`, `query` and `params` are preserved, both by a single continuation
invocation and across a whole chain run. -/
theorem C10_continuation_frame (ctx : IntRequest) :
    applyContinuation ctx none = ctx ∧
    (∀ c : Option JObj,
      (applyContinuation ctx c).method = ctx.method ∧
      (applyContinuation ctx c).path = ctx.path ∧
      (applyContinuation ctx c).headers = ctx.headers ∧
      (applyContinuation ctx c).query = ctx.query ∧
      (applyContinuation ctx c).params = ctx.params) ∧
    (∀ (mws : List MiddlewareModule) (h : Handler),
      (callRecursiveMiddlewares mws ctx h).finalCtx.method = ctx.method ∧
      (callRecursiveMiddlewares mws ctx h).finalCtx.path = ctx.path ∧
      (callRecursiveMiddlewares mws ctx h).finalCtx.headers = ctx.headers ∧
      (callRecursiveMiddlewares mws ctx h).finalCtx.query = ctx.query ∧
      (callRecursiveMiddlewares mws ctx h).finalCtx.params = ctx.params) :=
  ⟨rfl, fun _ => ⟨rfl, rfl, rfl, rfl, rfl⟩, fun mws h => chainCtx_frame mws ctx h⟩

/-- C5: if every middleware before step `k` proceeds and step `k` returns the
response `r`, the chain stops at step `k`: exactly `k` steps run, the
middleware after it and the terminal handler never execute, and the response
handed to the orchestrator is exactly `r`. -/
theorem C5_short_circuit_mid (pre post : List MiddlewareModule)
    (mk : MiddlewareModule) (ctx : IntRequest) (h : Handler) (r : IntResponse)
    (hpre : ∀ m ∈ pre, ∀ c, ∃ d, m.handler c = MWStep.proceed d)
    (hk : ∀ c, mk.handler c = MWStep.respond r) :
    (callRecursiveMiddlewares (pre ++ mk :: post) ctx h).result =
        Except.ok (some r) ∧
      (callRecursiveMiddlewares (pre ++ mk :: post) ctx h).stepsRun =
        pre.length + 1 ∧
      (callRecursiveMiddlewares (pre ++ mk :: post) ctx h).handlerRan = false ∧
      finishChain (callRecursiveMiddlewares (pre ++ mk :: post) ctx h) =
        Except.ok r := by
  induction pre generalizing ctx with
  | nil =>
    simp [callRecursiveMiddlewares, hk ctx, finishChain]
  | cons m pre ih =>
    obtain ⟨d, hd⟩ := hpre m (List.mem_cons_self m pre) ctx
    have ih' := ih (applyContinuation ctx d)
      (fun m' hm' => hpre m' (List.mem_cons_of_mem _ hm'))
    simp only [List.cons_append, callRecursiveMiddlewares, hd, List.length_cons]
    refine ⟨ih'.1, ?_, ih'.2.2.1, ih'.2.2.2⟩
    have h2 := ih'.2.1
    simp only [List.append_eq] at h2 ⊢
    omega


/-! ## Route matching and resolution lemmas -/

theorem structMatchSegs_length (ts ps : List Seg) (h : structMatchSegs ts ps = true) :
    ts.length = ps.length := by
  simp only [structMatchSegs, Bool.and_eq_true, beq_iff_eq] at h
  exact h.1

theorem cmpFlags_allFalse (fa fb : List Bool) (hlen : fa.length = fb.length)
    (hfa : ∀ x ∈ fa, x = false) (hfb : ∃ x ∈ fb, x = true) :
    cmpFlags fa fb = some (-1) ∧ cmpFlags fb fa = some 1 := by
  induction fa generalizing fb with
  | nil =>
    cases fb with
    | nil => simp at hfb
    | cons b fb => simp at hlen
  | cons a fa ih =>
    cases fb with
    | nil => simp at hlen
    | cons b fb =>
      have ha : a = false := hfa a (List.mem_cons_self a fa)
      subst ha
      cases b with
      | true => simp [cmpFlags]
      | false =>
        have hfb' : ∃ x ∈ fb, x = true := by
          rcases hfb with ⟨x, hx, hxt⟩
          rcases List.mem_cons.mp hx with rfl | hx'
          · exact absurd hxt (by simp)
          · exact ⟨x, hx', hxt⟩
        have := ih fb (by simpa using hlen)
          (fun x hx => hfa x (List.mem_cons_of_mem _ hx)) hfb'
        simpa [cmpFlags] using this

theorem sortCompiledRoutes_lit_dyn (lit dyn : RouteIdentity) (path : String)
    (hlit : ∀ s ∈ splitSlash lit.pathname, segIsDyn s = false)
    (hdyn : ∃ s ∈ splitSlash dyn.pathname, segIsDyn s = true)
    (hmL : paramPatternTest lit.pathname path = true)
    (hmD : paramPatternTest dyn.pathname path = true) :
    sortCompiledRoutes lit dyn = -1 ∧ sortCompiledRoutes dyn lit = 1 := by
  have hlen : (splitSlash lit.pathname).length = (splitSlash dyn.pathname).length := by
    have h1 := structMatchSegs_length _ _ hmL
    have h2 := structMatchSegs_length _ _ hmD
    omega
  have hfa : ∀ x ∈ (splitSlash lit.pathname).map segIsDyn, x = false := by
    intro x hx
    obtain ⟨s, hs, rfl⟩ := List.mem_map.mp hx
    exact hlit s hs
  have hfb : ∃ x ∈ (splitSlash dyn.pathname).map segIsDyn, x = true := by
    obtain ⟨s, hs, hst⟩ := hdyn
    exact ⟨segIsDyn s, List.mem_map_of_mem _ hs, hst⟩
  have hres := cmpFlags_allFalse _ _ (by simpa using hlen) hfa hfb
  exact ⟨sortCompiledRoutes_flags_some _ _ _ hres.1,
    sortCompiledRoutes_flags_some _ _ _ hres.2⟩

theorem capturesSegs_nil (ts ps : List Seg)
    (h : ∀ s ∈ ts, segIsDyn s = false) : capturesSegs ts ps = [] := by
  induction ts generalizing ps with
  | nil => rfl
  | cons t ts ih =>
    cases ps with
    | nil => rfl
    | cons p ps =>
      have ht := h t (List.mem_cons_self t ts)
      simp only [capturesSegs, List.zip_cons_cons, List.filterMap_cons, ht,
        Bool.false_eq_true, if_false]
      simpa [capturesSegs] using ih ps (fun s hs => h s (List.mem_cons_of_mem _ hs))

theorem extractParams_nil (keys : List String) (tmpl path : String)
    (h : ∀ s ∈ splitSlash tmpl, segIsDyn s = false) :
    extractParams keys tmpl path = [] := by
  simp [extractParams, paramCaptures, capturesSegs_nil _ _ h]

/-- C2: for a literal template and a dynamic template that both structurally
match the same request path, the registry puts the literal first regardless
of discovery order, the resolver therefore picks the literal template's
handler, and the extracted `params` for that request are empty. -/
theorem C2_literal_beats_dynamic (lit dyn : RouteIdentity) (ids : List RouteIdentity)
    (moduleOf : RouteIdentity → RouteModule) (method path : String) (hL : Handler)
    (hlit : ∀ s ∈ splitSlash lit.pathname, segIsDyn s = false)
    (hdyn : ∃ s ∈ splitSlash dyn.pathname, segIsDyn s = true)
    (hmL : paramPatternTest lit.pathname path = true)
    (hmD : paramPatternTest dyn.pathname path = true)
    (horder : ids = [lit, dyn] ∨ ids = [dyn, lit])
    (hh : effectiveHandler (moduleOf lit) method = some hL) :
    getIdentities ids path = [lit, dyn] ∧
      selectRoute (getIdentities ids path) moduleOf method = some (some hL, lit) ∧
      extractParams lit.paramKeys lit.pathname path = [] := by
  obtain ⟨hcd, hdc⟩ := sortCompiledRoutes_lit_dyn lit dyn path hlit hdyn hmL hmD
  have hle : routeLE lit dyn := by unfold routeLE; rw [hcd]; norm_num
  have hnle : ¬ routeLE dyn lit := by unfold routeLE; rw [hdc]; norm_num
  have hsorted : getIdentities ids path = [lit, dyn] := by
    rcases horder with rfl | rfl
    · simp [getIdentities, hmL, hmD, List.insertionSort, List.orderedInsert, hle]
    · simp [getIdentities, hmL, hmD, List.insertionSort, List.orderedInsert, hnle]
  refine ⟨hsorted, ?_, extractParams_nil _ _ _ hlit⟩
  rw [hsorted]
  simp [selectRoute, hh]

theorem C2_witness :
    getIdentities [c2Dyn, c2Lit] "users/me" = [c2Lit, c2Dyn] ∧
      selectRoute (getIdentities [c2Dyn, c2Lit] "users/me") c2ModuleOf "GET" =
        some (some c2Handler, c2Lit) ∧
      extractParams c2Lit.paramKeys c2Lit.pathname "users/me" = [] :=
  C2_literal_beats_dynamic c2Lit c2Dyn [c2Dyn, c2Lit] c2ModuleOf "GET" "users/me"
    c2Handler (by decide) (by decide) (by decide) (by decide) (Or.inr rfl) rfl

theorem find?_append_first {α : Type} (p : α → Bool) (pre post : List α) (x : α)
    (hpre : ∀ y ∈ pre, p y = false) (hx : p x = true) :
    (pre ++ x :: post).find? p = some x := by
  induction pre with
  | nil => rw [List.nil_append, List.find?_cons_of_pos _ hx]
  | cons y pre ih =>
    have hy := hpre y (List.mem_cons_self y pre)
    rw [List.cons_append, List.find?_cons_of_neg _ (by simp [hy])]
    exact ih (fun z hz => hpre z (List.mem_cons_of_mem _ hz))

/-- C3: the resolver's effective handler falls back from the method export to
the wildcard `ALL` export and then to the `default` export (it is absent only
when all three are); when at least one identity structurally matches but no
match exposes a usable handler through any of these paths, the dispatcher
answers with the configured MethodNotAllowed (405) response, never with the
RouteNotFound (404) response; and the resolver stops at the first match in
specificity order exposing a usable handler. -/
theorem C3_method_resolution (a : TunnelArgs) :
    (∀ i : RouteIdentity,
      (effectiveHandler (a.moduleOf i) a.data.method = none ↔
        ((a.moduleOf i).byMethod a.data.method = none ∧
          (a.moduleOf i).all = none ∧ (a.moduleOf i).dflt = none))) ∧
    (getIdentities a.identities a.data.path ≠ [] →
      (∀ i ∈ getIdentities a.identities a.data.path,
        effectiveHandler (a.moduleOf i) a.data.method = none) →
      dispatch a = Except.ok (methodNotAllowedResponse a.config) ∧
        dispatch a ≠ Except.ok (notFoundResponse a.config)) ∧
    (∀ (pre post : List RouteIdentity) (x : RouteIdentity) (h : Handler),
      getIdentities a.identities a.data.path = pre ++ x :: post →
      (∀ y ∈ pre, effectiveHandler (a.moduleOf y) a.data.method = none) →
      effectiveHandler (a.moduleOf x) a.data.method = some h →
      selectRoute (getIdentities a.identities a.data.path) a.moduleOf a.data.method =
        some (some h, x)) := by
  refine ⟨?_, ?_, ?_⟩
  · intro i
    unfold effectiveHandler
    cases hbm : (a.moduleOf i).byMethod a.data.method with
    | some h => simp [hbm]
    | none =>
      cases hall : (a.moduleOf i).all with
      | some h => simp [hall]
      | none => simp [hall]
  · intro hne hall
    have hsel : selectRoute (getIdentities a.identities a.data.path) a.moduleOf
        a.data.method = none := by
      unfold selectRoute
      rw [List.find?_eq_none]
      intro r hr
      obtain ⟨i, hi, rfl⟩ := List.mem_map.mp hr
      simp [hall i hi]
    have hd : dispatch a = Except.ok (methodNotAllowedResponse a.config) := by
      unfold dispatch
      rw [if_neg (by simpa [List.isEmpty_iff] using hne), hsel]
    refine ⟨hd, ?_⟩
    rw [hd]
    intro hcontra
    have := (Except.ok.injEq _ _).mp hcontra
    simp [methodNotAllowedResponse, notFoundResponse] at this
  · intro pre post x h hsplit hpre hx
    have hfind := find?_append_first
      (fun r : Option Handler × RouteIdentity => r.1.isSome)
      (pre.map fun i => (effectiveHandler (a.moduleOf i) a.data.method, i))
      (post.map fun i => (effectiveHandler (a.moduleOf i) a.data.method, i))
      (effectiveHandler (a.moduleOf x) a.data.method, x)
      (by
        intro y hy
        obtain ⟨i, hi, rfl⟩ := List.mem_map.mp hy
        simp [hpre i hi])
      (by simp [hx])
    unfold selectRoute
    rw [hsplit, List.map_append, List.map_cons, hfind, hx]

theorem C3_witness :
    dispatch c3Args = Except.ok (methodNotAllowedResponse c3Args.config) ∧
      dispatch c3Args ≠ Except.ok (notFoundResponse c3Args.config) :=
  (C3_method_resolution c3Args).2.1 (by decide) (fun _ _ => rfl)

theorem C5_witness :
    (callRecursiveMiddlewares ([c5Pre] ++ c5Mid :: [c5Post]) c5Ctx c5Handler).result =
        Except.ok (some c5Resp) ∧
      (callRecursiveMiddlewares ([c5Pre] ++ c5Mid :: [c5Post]) c5Ctx c5Handler).stepsRun =
        [c5Pre].length + 1 ∧
      (callRecursiveMiddlewares ([c5Pre] ++ c5Mid :: [c5Post]) c5Ctx c5Handler).handlerRan =
        false ∧
      finishChain (callRecursiveMiddlewares ([c5Pre] ++ c5Mid :: [c5Post]) c5Ctx c5Handler) =
        Except.ok c5Resp :=
  C5_short_circuit_mid [c5Pre] [c5Post] c5Mid c5Ctx c5Handler c5Resp
    (by
      intro m hm c
      rw [List.mem_singleton] at hm
      subst hm
      exact ⟨none, rfl⟩)
    (fun _ => rfl)

/-! ## Static-asset stage and the error boundary -/

/-- C7 (amended): when the static folder exists, a file for the request path
is found AND its MIME type resolves, the worker serves the file stream
directly, and the outcome is independent of every routing input (identities,
route modules, middleware files) — routing is never reached. -/
theorem C7_static_serves_when_mime_known (a : TunnelArgs) (folder file mt : String)
    (h1 : a.staticFolder = some folder)
    (h2 : a.staticFileIn folder = some file)
    (h3 : a.mimeLookup file = some mt) :
    tunnel a = TunnelOutcome.sent
      { status := 200, headers := [("Content-Type", mt)],
        body := some (Body.stream file) } ∧
    (∀ (ids : List RouteIdentity) (mo : RouteIdentity → RouteModule)
        (mws : List MWFile),
      tunnel { a with identities := ids, moduleOf := mo, middlewareFiles := mws } =
        tunnel a) := by
  have key : ∀ (b : TunnelArgs), b.staticFolder = some folder →
      b.staticFileIn folder = some file → b.mimeLookup file = some mt →
      tunnel b = TunnelOutcome.sent
        { status := 200, headers := [("Content-Type", mt)],
          body := some (Body.stream file) } := by
    intro b hb1 hb2 hb3
    simp [tunnel, hb1, hb2, hb3]
  refine ⟨key a h1 h2 h3, fun ids mo mws => ?_⟩
  have hupd := key { a with identities := ids, moduleOf := mo, middlewareFiles := mws } h1 h2 h3
  rw [hupd, key a h1 h2 h3]

theorem C7_witness :
    (some "public" : Option String) = some "public" ∧
      tunnel c7ServeArgs = TunnelOutcome.sent
        { status := 200, headers := [("Content-Type", "text/plain")],
          body := some (Body.stream "public/readme.txt") } :=
  ⟨rfl, (C7_static_serves_when_mime_known c7ServeArgs "public" "public/readme.txt"
    "text/plain" rfl rfl rfl).1⟩

/-- C7 counterexample: the request path resolves to an existing static asset
(`staticFileIn` finds `public/readme`), yet because the MIME lookup fails the
worker does NOT serve the file and falls through to route resolution, which
here produces the RouteNotFound response — refuting "every request whose path
resolves to an existing static asset is served directly and never reaches
route matching". -/
theorem C7_counterexample :
    tunnel c7Args = TunnelOutcome.sent (notFoundResponse c7Args.config) ∧
      notFoundResponse c7Args.config =
        { status := 404, headers := [("Content-Type", "application/json")],
          body := some (Body.message "Not found") } := by
  constructor <;> rfl

/-- C8 (amended): whatever is thrown from the chain/handler is caught exactly
once at the orchestrator boundary: an `Error` becomes the internal-error
(500) response carrying that error's message, a thrown non-null object
(in particular a response-shaped one) is forwarded verbatim as the response —
but a thrown primitive value is re-thrown out of the worker, not turned into
a response. -/
theorem C8_catch_boundary (a : TunnelArgs) (t : Thrown) (x : RouteIdentity)
    (h : Handler)
    (hstatic : a.staticFolder = none)
    (hsel : selectRoute (getIdentities a.identities a.data.path) a.moduleOf
      a.data.method = some (some h, x))
    (hmw : ∀ m ∈ getMiddlewares a.basePath a.middlewareFiles x.pathname,
      ∀ c, ∃ d, m.handler c = MWStep.proceed d)
    (hh : ∀ ctx, h ctx = Except.error t) :
    dispatch a = Except.error t ∧
    tunnel a = (match t with
      | Thrown.err m => TunnelOutcome.sent
          { status := 500, headers := [("Content-Type", "application/json")],
            body := some (Body.message m) }
      | Thrown.obj r => TunnelOutcome.sent r
      | Thrown.prim s => TunnelOutcome.unhandled (Thrown.prim s)) := by
  have hne : getIdentities a.identities a.data.path ≠ [] := by
    intro hnil
    rw [hnil] at hsel
    simp [selectRoute] at hsel
  have hdisp : dispatch a = Except.error t := by
    unfold dispatch
    rw [if_neg (by simpa [List.isEmpty_iff] using hne), hsel]
    show finishChain (callRecursiveMiddlewares
      (getMiddlewares a.basePath a.middlewareFiles x.pathname)
      { mkContext a.data with
        params := extractParams x.paramKeys x.pathname a.data.path } h) =
      Except.error t
    obtain ⟨ctx', hchain⟩ := chain_all_proceed
      (getMiddlewares a.basePath a.middlewareFiles x.pathname)
      { mkContext a.data with
        params := extractParams x.paramKeys x.pathname a.data.path } h hmw
    rw [hchain]
    simp [finishChain, hh ctx']
  refine ⟨hdisp, ?_⟩
  unfold tunnel
  rw [hstatic, hdisp]
  cases t <;> rfl

theorem C8_witness :
    dispatch c8ErrArgs = Except.error (Thrown.err "boom") ∧
      tunnel c8ErrArgs = TunnelOutcome.sent
        { status := 500, headers := [("Content-Type", "application/json")],
          body := some (Body.message "boom") } :=
  C8_catch_boundary c8ErrArgs (Thrown.err "boom") c8Identity c8ErrHandler rfl rfl
    (by intro m hm c; simp [c8ErrArgs, getMiddlewares] at hm) (fun _ => rfl)

/-- C8 counterexample: a handler throws the primitive string value `"boom"`;
the worker does NOT turn it into a response at the boundary — the value is
re-thrown out of the worker (`throw error`), refuting "every value thrown
during routing or chain/handler execution is caught exactly once at the
orchestrator boundary" and mapped to a response. -/
theorem C8_counterexample :
    tunnel c8PrimArgs = TunnelOutcome.unhandled (Thrown.prim "boom") := by rfl

/-! ## Middleware discovery -/

theorem splitCharList_ne_nil (cs : List Char) : splitCharList cs ≠ [] := by
  induction cs with
  | nil => simp [splitCharList]
  | cons c rest ih =>
    simp only [splitCharList]
    by_cases hc : c = '/'
    · simp [hc]
    · simp only [hc, if_false]
      cases hsp : splitCharList rest with
      | nil => simp
      | cons s r => simp

theorem splitSlash_length_pos (s : String) : 0 < (splitSlash s).length :=
  List.length_pos.mpr (splitCharList_ne_nil s.data)

/-- C6 (amended): a middleware participates in the chain iff its file path is
the code path derived from the root anchor or from a cumulative prefix of AT
LEAST TWO segments of the resolved pathname (the one-segment cumulative
prefix is mapped to the root anchor instead of itself and therefore never
contributes its own code path); and the applicable middleware run in
discovery order — the executed chain is a subsequence of the discovered file
list, with no reordering by anchor specificity. -/
theorem C6_middleware_selection (basePath pathname : String) (files : List MWFile) :
    (∀ p : String,
      p ∈ middlewareCodePaths basePath pathname ↔
        (p = pjoin3 basePath "/" "middleware.mjs" ∨
          ∃ k, 2 ≤ k ∧ k ≤ (splitSlash pathname).length ∧
            p = pjoin3 basePath (joinSegs ((splitSlash pathname).take k))
              "middleware.mjs")) ∧
    List.Sublist (getMiddlewares basePath files pathname)
      (files.filterMap fun f =>
        f.handler.map fun h => ⟨dropPrefixStr basePath f.path, h⟩) := by
  constructor
  · intro p
    simp only [middlewareCodePaths, List.map_map, List.mem_map, List.mem_range,
      Function.comp]
    constructor
    · rintro ⟨i, hi, rfl⟩
      by_cases h0 : 0 < i
      · right
        refine ⟨i + 1, by omega, by omega, ?_⟩
        simp [h0]
      · left
        have : i = 0 := by omega
        subst this
        simp
    · rintro (rfl | ⟨k, hk2, hkn, rfl⟩)
      · exact ⟨0, splitSlash_length_pos pathname, by simp⟩
      · refine ⟨k - 1, by omega, ?_⟩
        have hpos : 0 < k - 1 := by omega
        have hkk : k - 1 + 1 = k := by omega
        simp [hpos, hkk]
  · exact List.Sublist.filterMap _ (List.filter_sublist files)

/-- C6 counterexample: for pathname `a/b` (the spec's template format has no
leading slash) the middleware anchored at the one-segment cumulative prefix
`a` (file `app/a/middleware.mjs`) does NOT participate, although `a` is a
cumulative prefix of `a/b`; and with discovery order nested-before-root the
dispatcher runs the most-nested middleware FIRST and the root middleware
last — refuting both the participation-iff and the root-first ordering. -/
theorem C6_counterexample :
    getMiddlewares "app" [c6SkippedFile] "a/b" = [] ∧
      joinSegs ((splitSlash "a/b").take 1) = "a" ∧
      (getMiddlewares "app" [c6NestedFile, c6RootFile] "a/b").map
          MiddlewareModule.pathname = ["/a/b/middleware.mjs", "/middleware.mjs"] :=
  ⟨rfl, rfl, rfl⟩

/-! ## Percent-encoding round-trip -/

theorem unescapeBytes_nonpercent (c : Char) (rest : List Char) (h : ¬ c = '%') :
    unescapeBytes (c :: rest) = utf8Bytes c.toNat ++ unescapeBytes rest := by
  rw [unescapeBytes, if_neg h]

theorem unescapeBytes_percent (rest : List Char) (b : Nat) (rest2 : List Char)
    (h : percentStep rest = some (b, rest2)) :
    unescapeBytes ('%' :: rest) = b :: unescapeBytes rest2 := by
  rw [unescapeBytes, if_pos rfl]
  split
  · next b' rest2' hps =>
    rw [h] at hps
    obtain ⟨rfl, rfl⟩ := by exact Prod.mk.injEq .. ▸ (Option.some.injEq _ _ ▸ hps)
    rfl
  · next hps =>
    rw [h] at hps
    exact absurd hps (by simp)

theorem utf8Decode_cons_eq (b : Nat) (rest : List Nat) :
    utf8Decode (b :: rest) =
      (decodeStep b rest).1 :: utf8Decode (decodeStep b rest).2 := by
  rw [utf8Decode]

theorem charToNat_lt (c : Char) : c.toNat < 0x110000 := by
  rcases c.valid with h | h
  · exact lt_trans h (by norm_num)
  · exact h.2

theorem utf8Bytes_lt (n : Nat) (hv : n < 0x110000) : ∀ b ∈ utf8Bytes n, b < 256 := by
  intro b hb
  unfold utf8Bytes at hb
  split at hb <;> [skip; split at hb] <;> [skip; skip; split at hb] <;>
    simp only [List.mem_cons, List.mem_singleton, List.not_mem_nil, or_false] at hb <;>
    omega

theorem hexVal_hexDigit (k : Nat) (h : k < 16) : hexVal (hexDigit k) = some k := by
  interval_cases k <;> decide

theorem decodeStep_one (b : Nat) (rest : List Nat) (h : b < 0x80) :
    decodeStep b rest = (Char.ofNat b, rest) := by
  unfold decodeStep
  rw [if_pos h]

theorem decodeStep_two (b b2 : Nat) (rest : List Nat)
    (hb : 0xC2 ≤ b ∧ b < 0xE0) (hb2 : 0x80 ≤ b2 ∧ b2 < 0xC0) :
    decodeStep b (b2 :: rest) = (Char.ofNat ((b - 0xC0) * 64 + (b2 - 0x80)), rest) := by
  unfold decodeStep
  rw [if_neg (show ¬ b < 0x80 by omega),
    if_pos (show (decide (0xC2 ≤ b) && decide (b < 0xE0)) = true by
      simp only [Bool.and_eq_true, decide_eq_true_eq]; omega)]
  simp only [dec2, show isCont b2 = true from by
    simp only [isCont, Bool.and_eq_true, decide_eq_true_eq]; omega, if_true]

theorem decodeStep_three (b b2 b3 : Nat) (rest : List Nat)
    (hb : 0xE0 ≤ b ∧ b < 0xF0) (hb2 : 0x80 ≤ b2 ∧ b2 < 0xC0)
    (hb3 : 0x80 ≤ b3 ∧ b3 < 0xC0) :
    decodeStep b (b2 :: b3 :: rest) =
      (Char.ofNat ((b - 0xE0) * 4096 + (b2 - 0x80) * 64 + (b3 - 0x80)), rest) := by
  unfold decodeStep
  rw [if_neg (show ¬ b < 0x80 by omega),
    if_neg (show ¬ (decide (0xC2 ≤ b) && decide (b < 0xE0)) = true by
      simp only [Bool.and_eq_true, decide_eq_true_eq]; omega),
    if_pos (show (decide (0xE0 ≤ b) && decide (b < 0xF0)) = true by
      simp only [Bool.and_eq_true, decide_eq_true_eq]; omega)]
  simp only [dec3, show isCont b2 = true from by
      simp only [isCont, Bool.and_eq_true, decide_eq_true_eq]; omega,
    show isCont b3 = true from by
      simp only [isCont, Bool.and_eq_true, decide_eq_true_eq]; omega,
    Bool.and_self, if_true]

theorem decodeStep_four (b b2 b3 b4 : Nat) (rest : List Nat)
    (hb : 0xF0 ≤ b ∧ b < 0xF5) (hb2 : 0x80 ≤ b2 ∧ b2 < 0xC0)
    (hb3 : 0x80 ≤ b3 ∧ b3 < 0xC0) (hb4 : 0x80 ≤ b4 ∧ b4 < 0xC0) :
    decodeStep b (b2 :: b3 :: b4 :: rest) =
      (Char.ofNat ((b - 0xF0) * 262144 + (b2 - 0x80) * 4096 + (b3 - 0x80) * 64 +
        (b4 - 0x80)), rest) := by
  unfold decodeStep
  rw [if_neg (show ¬ b < 0x80 by omega),
    if_neg (show ¬ (decide (0xC2 ≤ b) && decide (b < 0xE0)) = true by
      simp only [Bool.and_eq_true, decide_eq_true_eq]; omega),
    if_neg (show ¬ (decide (0xE0 ≤ b) && decide (b < 0xF0)) = true by
      simp only [Bool.and_eq_true, decide_eq_true_eq]; omega),
    if_pos (show (decide (0xF0 ≤ b) && decide (b < 0xF5)) = true by
      simp only [Bool.and_eq_true, decide_eq_true_eq]; omega)]
  simp only [dec4, show isCont b2 = true from by
      simp only [isCont, Bool.and_eq_true, decide_eq_true_eq]; omega,
    show isCont b3 = true from by
      simp only [isCont, Bool.and_eq_true, decide_eq_true_eq]; omega,
    show isCont b4 = true from by
      simp only [isCont, Bool.and_eq_true, decide_eq_true_eq]; omega,
    Bool.and_self, if_true]

theorem utf8Decode_cons (n : Nat) (hv : n < 0x110000) (rest : List Nat) :
    utf8Decode (utf8Bytes n ++ rest) = Char.ofNat n :: utf8Decode rest := by
  by_cases h1 : n < 0x80
  · rw [show utf8Bytes n = [n] from by rw [utf8Bytes, if_pos h1], List.cons_append,
      List.nil_append, utf8Decode_cons_eq, decodeStep_one n rest h1]
  · by_cases h2 : n < 0x800
    · rw [show utf8Bytes n = [0xC0 + n / 64, 0x80 + n % 64] from by
        rw [utf8Bytes, if_neg h1, if_pos h2]]
      rw [List.cons_append, List.cons_append, List.nil_append, utf8Decode_cons_eq,
        decodeStep_two _ _ _ (by omega) (by omega)]
      rw [show (0xC0 + n / 64 - 0xC0) * 64 + (0x80 + n % 64 - 0x80) = n from by omega]
    · by_cases h3 : n < 0x10000
      · rw [show utf8Bytes n = [0xE0 + n / 4096, 0x80 + n / 64 % 64, 0x80 + n % 64] from by
          rw [utf8Bytes, if_neg h1, if_neg h2, if_pos h3]]
        rw [List.cons_append, List.cons_append, List.cons_append, List.nil_append,
          utf8Decode_cons_eq, decodeStep_three _ _ _ _ (by omega) (by omega) (by omega)]
        rw [show (0xE0 + n / 4096 - 0xE0) * 4096 + (0x80 + n / 64 % 64 - 0x80) * 64 +
          (0x80 + n % 64 - 0x80) = n from by omega]
      · rw [show utf8Bytes n =
            [0xF0 + n / 262144, 0x80 + n / 4096 % 64, 0x80 + n / 64 % 64, 0x80 + n % 64] from by
          rw [utf8Bytes, if_neg h1, if_neg h2, if_neg h3]]
        rw [List.cons_append, List.cons_append, List.cons_append, List.cons_append,
          List.nil_append, utf8Decode_cons_eq,
          decodeStep_four _ _ _ _ _ (by omega) (by omega) (by omega) (by omega)]
        rw [show (0xF0 + n / 262144 - 0xF0) * 262144 + (0x80 + n / 4096 % 64 - 0x80) * 4096 +
          (0x80 + n / 64 % 64 - 0x80) * 64 + (0x80 + n % 64 - 0x80) = n from by omega]


theorem unreserved_ne_percent (c : Char) (h : isUnreservedChar c = true) :
    ¬ c = '%' := by
  intro he
  subst he
  exact absurd h (by decide)

theorem unescapeBytes_triples (bs : List Nat) (tail : List Char)
    (hb : ∀ b ∈ bs, b < 256) :
    unescapeBytes ((bs.flatMap fun b =>
      ['%', hexDigit (b / 16), hexDigit (b % 16)]) ++ tail) =
      bs ++ unescapeBytes tail := by
  induction bs with
  | nil => simp
  | cons b bs ih =>
    have hblt : b < 256 := hb b (List.mem_cons_self b bs)
    have hps : percentStep (hexDigit (b / 16) :: hexDigit (b % 16) ::
        ((bs.flatMap fun b => ['%', hexDigit (b / 16), hexDigit (b % 16)]) ++ tail)) =
        some (b, (bs.flatMap fun b => ['%', hexDigit (b / 16), hexDigit (b % 16)]) ++ tail) := by
      simp only [percentStep, hexVal_hexDigit (b / 16) (by omega),
        hexVal_hexDigit (b % 16) (by omega)]
      congr 2
      omega
    simp only [List.flatMap_cons, List.cons_append, List.singleton_append,
      List.append_assoc, List.nil_append]
    rw [unescapeBytes_percent _ _ _ hps,
      ih (fun x hx => hb x (List.mem_cons_of_mem _ hx))]

theorem unescapeBytes_escape (cs : List Char) :
    unescapeBytes (escapeChars cs) = cs.flatMap fun c => utf8Bytes c.toNat := by
  induction cs with
  | nil => simp [escapeChars, unescapeBytes]
  | cons c cs ih =>
    simp only [escapeChars, List.flatMap_cons]
    by_cases hu : isUnreservedChar c = true
    · rw [if_pos hu, List.singleton_append,
        unescapeBytes_nonpercent c _ (unreserved_ne_percent c hu)]
      simpa [escapeChars] using congrArg (utf8Bytes c.toNat ++ ·) ih
    · rw [if_neg hu, unescapeBytes_triples _ _ (utf8Bytes_lt c.toNat (charToNat_lt c))]
      simpa [escapeChars] using congrArg (utf8Bytes c.toNat ++ ·) ih

theorem utf8Decode_flatMap (cs : List Char) :
    utf8Decode (cs.flatMap fun c => utf8Bytes c.toNat) = cs := by
  induction cs with
  | nil => simp [utf8Decode]
  | cons c cs ih =>
    rw [List.flatMap_cons, utf8Decode_cons c.toNat (charToNat_lt c), ih,
      Char.ofNat_toNat]


theorem unescape_escape (v : String) : unescape (escape v) = v := by
  show (⟨utf8Decode (unescapeBytes (escapeChars v.data))⟩ : String) = v
  rw [unescapeBytes_escape, utf8Decode_flatMap]

theorem splitCharList_no_slash (x : List Char) (h : '/' ∉ x) :
    splitCharList x = [x] := by
  induction x with
  | nil => rfl
  | cons c rest ih =>
    have hc : ¬ c = '/' := fun he => h (he ▸ List.mem_cons_self c rest)
    have hr : '/' ∉ rest := fun hm => h (List.mem_cons_of_mem c hm)
    simp only [splitCharList, hc, if_false, ih hr]

theorem splitCharList_append_slash (x l : List Char) (h : '/' ∉ x) :
    splitCharList (x ++ '/' :: l) = x :: splitCharList l := by
  induction x with
  | nil => simp [splitCharList]
  | cons c rest ih =>
    have hc : ¬ c = '/' := fun he => h (he ▸ List.mem_cons_self c rest)
    have hr : '/' ∉ rest := fun hm => h (List.mem_cons_of_mem c hm)
    simp only [List.cons_append, splitCharList, hc, if_false, List.append_eq, ih hr]

theorem splitSlash_joinSegs (segs : List Seg) (hne : segs ≠ [])
    (h : ∀ s ∈ segs, '/' ∉ s) : splitSlash (joinSegs segs) = segs := by
  induction segs with
  | nil => exact absurd rfl hne
  | cons x rest ih =>
    cases rest with
    | nil =>
      show splitCharList (intercalateChars [x]) = [x]
      exact splitCharList_no_slash x (h x (List.mem_cons_self x []))
    | cons y rest' =>
      show splitCharList (intercalateChars (x :: y :: rest')) = x :: y :: rest'
      rw [show intercalateChars (x :: y :: rest') =
        x ++ '/' :: intercalateChars (y :: rest') from rfl]
      rw [splitCharList_append_slash x _ (h x (List.mem_cons_self x _))]
      have := ih (by simp) (fun s hs => h s (List.mem_cons_of_mem _ hs))
      exact congrArg (x :: ·) this

theorem splitCharList_mem_no_slash (cs : List Char) :
    ∀ s ∈ splitCharList cs, '/' ∉ s := by
  induction cs with
  | nil =>
    intro s hs
    simp [splitCharList] at hs
    simp [hs]
  | cons c rest ih =>
    intro s hs
    simp only [splitCharList] at hs
    by_cases hc : c = '/'
    · rw [if_pos hc] at hs
      rcases List.mem_cons.mp hs with rfl | hs'
      · simp
      · exact ih s hs'
    · rw [if_neg hc] at hs
      cases hsp : splitCharList rest with
      | nil => exact absurd hsp (splitCharList_ne_nil rest)
      | cons s0 r =>
        rw [hsp] at hs
        rcases List.mem_cons.mp hs with rfl | hs'
        · intro hmem
          rcases List.mem_cons.mp hmem with he | hm
          · exact hc he.symm
          · exact ih s0 (hsp ▸ List.mem_cons_self s0 r) hm
        · exact ih s (hsp ▸ List.mem_cons_of_mem s0 hs')

theorem hexDigit_ne_slash (k : Nat) (h : k < 16) : hexDigit k ≠ '/' := by
  interval_cases k <;> decide

theorem escapeChars_no_slash (cs : List Char) : '/' ∉ escapeChars cs := by
  intro hmem
  obtain ⟨c0, hc0, hbr⟩ := List.mem_flatMap.mp hmem
  by_cases hu : isUnreservedChar c0 = true
  · rw [if_pos hu] at hbr
    rw [List.mem_singleton] at hbr
    rw [← hbr] at hu
    exact absurd hu (by decide)
  · rw [if_neg hu] at hbr
    obtain ⟨b, hb, htri⟩ := List.mem_flatMap.mp hbr
    have hb256 : b < 256 := utf8Bytes_lt c0.toNat (charToNat_lt c0) b hb
    simp only [List.mem_cons, List.not_mem_nil, or_false] at htri
    rcases htri with he | he | he
    · exact absurd he (by decide)
    · exact (hexDigit_ne_slash (b / 16) (by omega)) he.symm
    · exact (hexDigit_ne_slash (b % 16) (by omega)) he.symm

theorem substSegs_length (ts : List Seg) (vs : List String) :
    (substSegs ts vs).length = ts.length := by
  induction ts generalizing vs with
  | nil => rfl
  | cons t ts ih =>
    simp only [substSegs]
    by_cases hd : segIsDyn t = true
    · rw [if_pos hd]
      cases vs with
      | nil => simp [ih]
      | cons v vs' => simp [ih]
    · rw [if_neg hd]
      simp [ih]

theorem substSegs_no_slash (ts : List Seg) (vs : List String)
    (hts : ∀ s ∈ ts, '/' ∉ s) : ∀ s ∈ substSegs ts vs, '/' ∉ s := by
  induction ts generalizing vs with
  | nil => intro s hs; simp [substSegs] at hs
  | cons t ts ih =>
    intro s hs
    have ht : '/' ∉ t := hts t (List.mem_cons_self t ts)
    have hts' : ∀ x ∈ ts, '/' ∉ x := fun x hx => hts x (List.mem_cons_of_mem _ hx)
    simp only [substSegs] at hs
    by_cases hd : segIsDyn t = true
    · rw [if_pos hd] at hs
      cases vs with
      | nil =>
        rcases List.mem_cons.mp hs with rfl | hs'
        · exact ht
        · exact ih [] hts' s hs'
      | cons v vs' =>
        rcases List.mem_cons.mp hs with rfl | hs'
        · exact escapeChars_no_slash v.data
        · exact ih vs' hts' s hs'
    · rw [if_neg hd] at hs
      rcases List.mem_cons.mp hs with rfl | hs'
      · exact ht
      · exact ih vs hts' s hs'

theorem structMatchSegs_substSegs (ts : List Seg) (vs : List String) :
    structMatchSegs ts (substSegs ts vs) = true := by
  unfold structMatchSegs
  rw [Bool.and_eq_true]
  refine ⟨by simp [substSegs_length], ?_⟩
  rw [List.all_eq_true]
  induction ts generalizing vs with
  | nil => intro tp htp; simp [substSegs] at htp
  | cons t ts ih =>
    intro tp htp
    simp only [substSegs] at htp
    by_cases hd : segIsDyn t = true
    · rw [if_pos hd] at htp
      cases vs with
      | nil =>
        rw [List.zip_cons_cons] at htp
        rcases List.mem_cons.mp htp with rfl | h'
        · simp [hd]
        · exact ih [] tp h'
      | cons v vs' =>
        rw [List.zip_cons_cons] at htp
        rcases List.mem_cons.mp htp with rfl | h'
        · simp [hd]
        · exact ih vs' tp h'
    · rw [if_neg hd] at htp
      rw [List.zip_cons_cons] at htp
      rcases List.mem_cons.mp htp with rfl | h'
      · simp
      · exact ih vs tp h'

theorem capturesSegs_substSegs (ts : List Seg) (vs : List String)
    (hv : vs.length = (ts.filter fun s => segIsDyn s).length) :
    capturesSegs ts (substSegs ts vs) = vs.map fun v => (escape v).data := by
  induction ts generalizing vs with
  | nil =>
    simp only [List.filter_nil, List.length_nil] at hv
    rw [List.length_eq_zero] at hv
    subst hv
    rfl
  | cons t ts ih =>
    by_cases hd : segIsDyn t = true
    · rw [show (t :: ts).filter (fun s => segIsDyn s) =
        t :: ts.filter (fun s => segIsDyn s) from by rw [List.filter_cons_of_pos hd]]
        at hv
      cases vs with
      | nil => simp at hv
      | cons v vs' =>
        simp only [List.length_cons, Nat.add_right_cancel_iff] at hv
        simp only [substSegs, if_pos hd, capturesSegs, List.zip_cons_cons,
          List.filterMap_cons, hd, if_true, List.map_cons]
        exact congrArg _ (ih vs' hv)
    · rw [show (t :: ts).filter (fun s => segIsDyn s) =
        ts.filter (fun s => segIsDyn s) from by
          rw [List.filter_cons_of_neg (by simp [hd])]] at hv
      simp only [substSegs, if_neg hd, capturesSegs, List.zip_cons_cons,
        List.filterMap_cons, hd, Bool.false_eq_true, if_false]
      exact ih vs hv

/-- C9: substituting percent-encoded values into a template's dynamic
segments yields a path that the template's pattern matches (structurally
conformant), and extracting parameters from that path — positional captures
in template order, zipped with `paramKeys`, each capture percent-decoded —
reproduces exactly the original values: decoding inverts encoding. -/
theorem C9_param_roundtrip (tmpl : String) (keys vals : List String)
    (hv : vals.length = ((splitSlash tmpl).filter fun s => segIsDyn s).length) :
    paramPatternTest tmpl (substPath tmpl vals) = true ∧
      extractParams keys tmpl (substPath tmpl vals) = keys.zip vals := by
  have hsplit : splitSlash (substPath tmpl vals) = substSegs (splitSlash tmpl) vals := by
    apply splitSlash_joinSegs
    · intro hnil
      have := substSegs_length (splitSlash tmpl) vals
      rw [hnil] at this
      have hp := splitSlash_length_pos tmpl
      simp at this
      omega
    · exact substSegs_no_slash _ _ (splitCharList_mem_no_slash tmpl.data)
  constructor
  · unfold paramPatternTest
    rw [hsplit]
    exact structMatchSegs_substSegs _ _
  · unfold extractParams paramCaptures
    rw [hsplit, capturesSegs_substSegs _ _ hv]
    have hmap : ((vals.map fun v => (escape v).data).map fun l =>
        String.mk l).map unescape = vals := by
      rw [List.map_map, List.map_map]
      have h2 : List.map ((unescape ∘ fun l => String.mk l) ∘ fun v =>
          (escape v).data) vals = List.map id vals :=
        List.map_congr_left fun v _ => unescape_escape v
      rw [h2, List.map_id]
    rw [hmap]

theorem C9_witness :
    (["John Doe"] : List String).length =
        ((splitSlash "users/[id]").filter fun s => segIsDyn s).length ∧
      (paramPatternTest "users/[id]" (substPath "users/[id]" ["John Doe"]) = true ∧
        extractParams ["id"] "users/[id]" (substPath "users/[id]" ["John Doe"]) =
          (["id"] : List String).zip ["John Doe"]) :=
  ⟨by decide, C9_param_roundtrip "users/[id]" ["id"] ["John Doe"] (by decide)⟩

end Kit
